import Mathlib

/-!
Shallow embedding of `gopg.go`, a PostgreSQL schema-migration runner, together
with theorems checking the natural-language specification against it.

The database, the filesystem and the driver are opaque collaborators of the
program, so they are modelled as explicit environments:
* the executor (`ExecuteUpgradeScript`) receives, for each candidate, the
  outcome of `db.Begin`, the two `tx.Exec` calls and `tx.Commit` (`TxEnv`);
* the discoverer (`GetUpgradeScripts`) receives the directory listing
  (`Except` for `ioutil.ReadDir`) and a read function for `ioutil.ReadFile`;
* the bootstrapper (`initDb`) receives, per attempt, the outcome of `getDb`,
  `db.Ping`, `createDb` and the version query (`BootEnv`).
`log.Print` calls are modelled as a list of `LogEv` events, `close(s)` as a
counter, and `defer db.Close()` as a `dbReleased` flag.  Channels carry their
values in order, so the two goroutines are modelled as functions from the
input list to the list of emitted values.
-/

namespace Gopg

/-- One `log.Print` event, restricted to the shapes the pipeline emits:
"Running: name", "Upgrade failed on: name", "Preparing: name", and a raw
error value. -/
inductive LogEv where
  | running (script : String)
  | failedOn (script : String)
  | prep (name : String)
  | err (msg : String)
  deriving Repr, DecidableEq

/-- The `Upgrade` struct of the source: `Id int`, `Script string`,
`Content []byte` (content modelled as a string). -/
structure Upgrade where
  Id : Int
  Script : String
  Content : String
  deriving Repr, DecidableEq

/-! ## Migration executor (`ExecuteUpgradeScript`, gopg.go lines 100-140) -/

/-- Environment for one candidate's transaction: the error (if any) returned
by `db.Begin`, by `tx.Exec(versionInsert, u.Id, u.Script)`, by
`tx.Exec(string(u.Content))`, and by `tx.Commit`. -/
structure TxEnv where
  beginErr : Option String
  insertErr : Option String
  execErr : Option String
  commitErr : Option String
  deriving Repr, DecidableEq

/-- The all-successful transaction environment. -/
def txOk : TxEnv := ⟨none, none, none, none⟩

/-- The three error checks of the executor's loop body collapsed into one
outcome.  `failedAt e opened` is the first failing stage's error together
with whether `tx != nil` (i.e. whether `db.Begin` had succeeded, which is
what decides whether `tx.Rollback()` runs).  `applied committed` means all
three checked calls succeeded; `committed` records whether the unchecked
`tx.Commit()` actually persisted the transaction. -/
inductive TxStep where
  | applied (committed : Bool)
  | failedAt (e : String) (opened : Bool)
  deriving Repr, DecidableEq

/-- Dispatch on a candidate's transaction environment exactly in source
order: begin, ledger insert, script body, then the ignored commit. -/
def txStep (t : TxEnv) : TxStep :=
  match t.beginErr with
  | some e => .failedAt e false
  | none =>
    match t.insertErr with
    | some e => .failedAt e true
    | none =>
      match t.execErr with
      | some e => .failedAt e true
      | none => .applied t.commitErr.isNone

/-- The three checked calls of one transaction all succeed (the condition
under which the executor's `ex` helper never fires for this candidate). -/
abbrev txBodyOk (t : TxEnv) : Prop :=
  t.beginErr = none ∧ t.insertErr = none ∧ t.execErr = none

/-- The whole transaction, the unchecked commit included, succeeds. -/
abbrev txAllOk (t : TxEnv) : Prop :=
  t.beginErr = none ∧ t.insertErr = none ∧ t.execErr = none ∧ t.commitErr = none

/-- Result of one executor run: the candidates sent on `s` (completions), how
many times `close(s)` ran, the log, the final ledger table contents, the
scripts whose transaction was rolled back, and whether the deferred
`db.Close()` ran. -/
structure ExecOut where
  emitted : List Upgrade
  closed : Nat
  log : List LogEv
  ledger : List (Int × String)
  rollbacks : List String
  dbReleased : Bool
  deriving Repr, DecidableEq

/-- The executor's `for u := range r` loop (gopg.go lines 105-137), given the
ledger contents at entry.  A committed transaction appends its
`INSERT INTO version(id, script)` row; a rolled-back or uncommitted one
leaves the ledger unchanged. -/
def execGo (env : Upgrade → TxEnv) : List (Int × String) → List Upgrade → ExecOut
  | led, [] => ⟨[], 1, [], led, [], true⟩
  | led, u :: rest =>
    match txStep (env u) with
    | .failedAt e opened =>
      ⟨[], 1, [.running u.Script, .err e, .failedOn u.Script], led,
        if opened then [u.Script] else [], true⟩
    | .applied committed =>
      let led' := if committed then led ++ [(u.Id, u.Script)] else led
      let r := execGo env led' rest
      ⟨u :: r.emitted, r.closed, .running u.Script :: r.log, r.ledger,
        r.rollbacks, r.dbReleased⟩

/-- `ExecuteUpgradeScript` (gopg.go lines 100-140): if `getDb` succeeds
(`dbOk`), run the loop with `db.Close()` deferred; otherwise the goroutine
returns at once — in the source this path neither closes `s` nor holds a
connection. -/
def ExecuteUpgradeScript (env : Upgrade → TxEnv) (dbOk : Bool)
    (led : List (Int × String)) (r : List Upgrade) : ExecOut :=
  if dbOk then execGo env led r else ⟨[], 0, [], led, [], false⟩

/-! ## Script discoverer (`GetUpgradeScripts`, gopg.go lines 142-174) -/

/-- The leading decimal-digit run of a name: what
`regexp.MustCompile("^\\d+").FindString` returns (empty when the name does
not start with a digit). -/
def leadingDigits (s : String) : String :=
  String.mk (s.toList.takeWhile Char.isDigit)

/-- Numeric value of a digit string. -/
def digitsVal (s : String) : Nat :=
  s.toList.foldl (fun a c => a * 10 + (c.toNat - 48)) 0

/-- Go's `math.MaxInt` on a 64-bit platform, the bound `strconv.Atoi`
enforces. -/
def maxInt : Nat := 2 ^ 63 - 1

/-- The error message `strconv.Atoi` reports for an out-of-range value. -/
def atoiErrMsg (s : String) : String :=
  "strconv.Atoi: parsing \"" ++ s ++ "\": value out of range"

/-- `strconv.Atoi` restricted to the nonempty digit strings the regexp
produces: the numeric value when it fits in a signed 64-bit int, an
`ErrRange` failure otherwise. -/
def atoi (s : String) : Except String Int :=
  if digitsVal s ≤ maxInt then .ok (digitsVal s) else .error (atoiErrMsg s)

/-- Outcome of the discoverer's loop body for one directory entry: skipped
(no leading digit, or version not above the current one), emitted as a
candidate, or failed (`fail pl e` carries the log events written before the
error — `[.prep name]` when `ReadFile` failed after "Preparing" was logged,
`[]` for an `Atoi` failure). -/
inductive EStep where
  | skip
  | emit (u : Upgrade)
  | fail (pl : List LogEv) (e : String)
  deriving Repr, DecidableEq

/-- The discoverer's loop body (gopg.go lines 157-169) for one entry name,
given the current version and the `ReadFile` environment. -/
def entryStep (ver : Int) (rd : String → Except String String) (f : String) : EStep :=
  let m := leadingDigits f
  if m = "" then .skip
  else
    match atoi m with
    | .error e => .fail [] e
    | .ok v =>
      if ver < v then
        match rd f with
        | .error e => .fail [.prep f] e
        | .ok b => .emit ⟨v, f, b⟩
      else .skip

/-- Whether an entry outcome is the failing one. -/
def stepFails : EStep → Bool
  | .fail _ _ => true
  | _ => false

/-- The candidate an entry outcome emits, if any. -/
def stepEmit : EStep → Option Upgrade
  | .emit u => some u
  | _ => none

/-- Result of one discoverer run: the candidates sent on `s`, how many times
`close(s)` ran, the log, and the directory entries left unprocessed after an
early error return. -/
structure DiscOut where
  emitted : List Upgrade
  closed : Nat
  log : List LogEv
  rest : List String
  deriving Repr, DecidableEq

/-- The discoverer's `for _, f := range files` loop (gopg.go lines 157-170)
followed by `close(s)`. -/
def discGo (ver : Int) (rd : String → Except String String) : List String → DiscOut
  | [] => ⟨[], 1, [], []⟩
  | f :: fs =>
    match entryStep ver rd f with
    | .skip => discGo ver rd fs
    | .emit u =>
      let r := discGo ver rd fs
      ⟨u :: r.emitted, r.closed, .prep f :: r.log, r.rest⟩
    | .fail pl e => ⟨[], 1, pl ++ [.err e], fs⟩

/-- `GetUpgradeScripts` (gopg.go lines 142-174): on a `ReadDir` error, log it
and close the channel; otherwise run the per-entry loop. -/
def GetUpgradeScripts (dirRes : Except String (List String)) (ver : Int)
    (rd : String → Except String String) : DiscOut :=
  match dirRes with
  | .error e => ⟨[], 1, [.err e], []⟩
  | .ok files => discGo ver rd files

/-- The candidates a listing yields, entry by entry in listing order. -/
def discEmit (ver : Int) (rd : String → Except String String)
    (l : List String) : List Upgrade :=
  l.filterMap (fun f => stepEmit (entryStep ver rd f))

/-- The "Preparing:" log events for a list of emitted candidates. -/
def prepLog (l : List Upgrade) : List LogEv :=
  l.map (fun u => .prep u.Script)

/-- The "Running:" log events for a list of consumed candidates. -/
def runLog (l : List Upgrade) : List LogEv :=
  l.map (fun u => .running u.Script)

/-- The ledger rows a list of candidates contributes: one
`(id, script)` row per candidate whose (unchecked) commit succeeded. -/
def ledgerRows (env : Upgrade → TxEnv) (l : List Upgrade) : List (Int × String) :=
  (l.filter (fun u => (env u).commitErr.isNone)).map (fun u => (u.Id, u.Script))

/-! ## Bootstrapper (`initDb`/`getVersion`, gopg.go lines 176-265) -/

/-- A version-query failure: `sql.ErrNoRows`, or any other driver error. -/
inductive QErr where
  | noRows
  | other (msg : String)
  deriving Repr, DecidableEq

/-- `getVersion` (gopg.go lines 253-265): scan the result of
`SELECT COALESCE(MAX(id),0) FROM version;`.  `sql.ErrNoRows` is mapped to
version 0 with no error; any other error is returned. -/
def getVersion : Except QErr Int → Int × Option QErr
  | .ok v => (v, none)
  | .error .noRows => (0, none)
  | .error (.other m) => (0, some (.other m))

/-- What the database answers for one `initDb` attempt: whether `getDb`
succeeded, the `db.Ping` error (if any), whether `createDb` would succeed,
the `CREATE TABLE IF NOT EXISTS` error (if any), and the version query
result. -/
structure BootEnv where
  dbOk : Bool
  pingErr : Option String
  createOk : Bool
  tableErr : Option String
  versionRes : Except QErr Int
  deriving Repr

/-- The exact `pq` driver message `initDb` compares the ping error against
(gopg.go line 182, `fmt.Sprintf("pq: database %q does not exist", ...)`). -/
def dbMissingMsg (dbname : String) : String :=
  "pq: database \"" ++ dbname ++ "\" does not exist"

/-- Outcome of one `initDb` attempt: a final answer, or the recursive
re-entry taken after a successful `createDb`. -/
inductive BootStep where
  | done (r : Bool × Int)
  | retry
  deriving Repr, DecidableEq

/-- One attempt of `initDb` (gopg.go lines 176-221), source branch for
branch: `getDb` failure → `(false, 0)`; ping failure with the exact
"does not exist" message → `createDb`, then retry on success and
`(false, 0)` on failure; any other ping failure → `(false, 0)`; ping
success → create the version table, then `getVersion`. -/
def bootStep (dbname : String) (e : BootEnv) : BootStep :=
  if e.dbOk then
    match e.pingErr with
    | some msg =>
      if msg = dbMissingMsg dbname then
        if e.createOk then .retry else .done (false, 0)
      else .done (false, 0)
    | none =>
      match e.tableErr with
      | some _ => .done (false, 0)
      | none =>
        match getVersion e.versionRes with
        | (v, none) => .done (true, v)
        | (_, some _) => .done (false, 0)
  else .done (false, 0)

/-- `initDb` with its recursion made explicit: attempt `k` consults
`env k`, and the source's `return initDb(cs)` (gopg.go line 194) becomes the
recursive call on attempt `k + 1`.  The source has no fuel parameter — its
recursion is unbounded — so `none` here means the source would still be
recursing after `fuel` attempts. -/
def initDbFuel (dbname : String) (env : Nat → BootEnv) : Nat → Nat → Option (Bool × Int)
  | 0, _ => none
  | fuel + 1, k =>
    match bootStep dbname (env k) with
    | .done r => some r
    | .retry => initDbFuel dbname env fuel (k + 1)

/-- The database's answer to `SELECT COALESCE(MAX(id),0)` over a ledger
table: the maximum recorded version, 0 for an empty ledger. -/
def ledgerMax (l : List (Int × String)) : Int :=
  l.foldr (fun p a => max p.1 a) 0

/-- A fully healthy bootstrap environment over a given ledger: connection
and ping succeed, the table statement succeeds, and the version query
answers `COALESCE(MAX(id),0)` honestly. -/
def honestBoot (l : List (Int × String)) : BootEnv :=
  ⟨true, none, true, none, .ok (ledgerMax l)⟩

/-- A bootstrap environment whose version lookup fails with a driver error
other than `sql.ErrNoRows`. -/
def failQueryBoot (m : String) : BootEnv :=
  ⟨true, none, true, none, .error (.other m)⟩

/-- A bootstrap environment in which the "database does not exist" ping
answer persists even though every `createDb` call succeeds. -/
def persistMissing (dbname : String) : Nat → BootEnv :=
  fun _ => ⟨true, some (dbMissingMsg dbname), true, none, .ok 0⟩

/-! ## Pipeline composition used by the idempotence claim -/

/-- Ledger contents after one full pipeline run: discovery at the version
reported for ledger `L0`, then execution of every emitted candidate. -/
def firstRunLedger (files : List String) (rd : String → Except String String)
    (L0 : List (Int × String)) (env : Upgrade → TxEnv) : List (Int × String) :=
  (ExecuteUpgradeScript env true L0
    (GetUpgradeScripts (.ok files) (ledgerMax L0) rd).emitted).ledger

/-- The discoverer re-run over the same directory immediately after a first
run, at the version the bootstrap would now report. -/
def secondScan (files : List String) (rd : String → Except String String)
    (L0 : List (Int × String)) (env : Upgrade → TxEnv) : DiscOut :=
  GetUpgradeScripts (.ok files) (ledgerMax (firstRunLedger files rd L0 env)) rd

/-! ## Helper lemmas: executor -/

theorem txStep_of_bodyOk {t : TxEnv} (h : txBodyOk t) :
    txStep t = .applied t.commitErr.isNone := by
  obtain ⟨h1, h2, h3⟩ := h
  simp [txStep, h1, h2, h3]

theorem execGo_closed (env : Upgrade → TxEnv) :
    ∀ (r : List Upgrade) (led : List (Int × String)),
      (execGo env led r).closed = 1 ∧ (execGo env led r).dbReleased = true := by
  intro r
  induction r with
  | nil => intro led; exact ⟨rfl, rfl⟩
  | cons u rest ih =>
    intro led
    cases h : txStep (env u) with
    | failedAt e opened => simp [execGo, h]
    | applied committed =>
      have := ih (if committed then led ++ [(u.Id, u.Script)] else led)
      simp [execGo, h, this.1, this.2]

theorem execGo_break (env : Upgrade → TxEnv) (u : Upgrade) (e : String) (opened : Bool)
    (hu : txStep (env u) = .failedAt e opened) :
    ∀ (pre : List Upgrade) (led : List (Int × String)) (rest : List Upgrade),
      (∀ x ∈ pre, txBodyOk (env x)) →
      execGo env led (pre ++ u :: rest) =
        ⟨pre, 1, runLog pre ++ [.running u.Script, .err e, .failedOn u.Script],
          led ++ ledgerRows env pre, if opened then [u.Script] else [], true⟩ := by
  intro pre
  induction pre with
  | nil =>
    intro led rest _
    simp [execGo, hu, runLog, ledgerRows]
  | cons x pre ih =>
    intro led rest hpre
    have hx : txBodyOk (env x) := hpre x (List.mem_cons_self x pre)
    have hrest : ∀ y ∈ pre, txBodyOk (env y) :=
      fun y hy => hpre y (List.mem_cons_of_mem x hy)
    cases hc : (env x).commitErr.isNone with
    | true =>
      have hstep : txStep (env x) = .applied true := by rw [txStep_of_bodyOk hx, hc]
      simp [List.cons_append, execGo, hstep, ih (led ++ [(x.Id, x.Script)]) rest hrest,
        runLog, ledgerRows, List.filter_cons, hc]
    | false =>
      have hstep : txStep (env x) = .applied false := by rw [txStep_of_bodyOk hx, hc]
      simp [List.cons_append, execGo, hstep, ih led rest hrest,
        runLog, ledgerRows, List.filter_cons, hc]

theorem execGo_ok (env : Upgrade → TxEnv) :
    ∀ (r : List Upgrade) (led : List (Int × String)),
      (∀ x ∈ r, txBodyOk (env x)) →
      execGo env led r = ⟨r, 1, runLog r, led ++ ledgerRows env r, [], true⟩ := by
  intro r
  induction r with
  | nil => intro led _; simp [execGo, runLog, ledgerRows]
  | cons x rest ih =>
    intro led hok
    have hx : txBodyOk (env x) := hok x (List.mem_cons_self x rest)
    have hrest : ∀ y ∈ rest, txBodyOk (env y) :=
      fun y hy => hok y (List.mem_cons_of_mem x hy)
    cases hc : (env x).commitErr.isNone with
    | true =>
      have hstep : txStep (env x) = .applied true := by rw [txStep_of_bodyOk hx, hc]
      simp [execGo, hstep, ih (led ++ [(x.Id, x.Script)]) hrest,
        runLog, ledgerRows, List.filter_cons, hc]
    | false =>
      have hstep : txStep (env x) = .applied false := by rw [txStep_of_bodyOk hx, hc]
      simp [execGo, hstep, ih led hrest, runLog, ledgerRows, List.filter_cons, hc]

/-! ## Helper lemmas: discoverer -/

theorem stepFails_false_cases {s : EStep} (h : stepFails s = false) :
    s = .skip ∨ ∃ u, s = .emit u := by
  cases s with
  | skip => exact Or.inl rfl
  | emit u => exact Or.inr ⟨u, rfl⟩
  | fail pl e => simp [stepFails] at h

theorem stepEmit_eq_some {s : EStep} {u : Upgrade} :
    stepEmit s = some u ↔ s = .emit u := by
  cases s <;> simp [stepEmit]

theorem atoi_ok_inv {s : String} {v : Int} (h : atoi s = .ok v) :
    v = (digitsVal s : Int) ∧ digitsVal s ≤ maxInt := by
  unfold atoi at h
  by_cases hle : digitsVal s ≤ maxInt
  · rw [if_pos hle] at h
    injection h with h2
    exact ⟨h2.symm, hle⟩
  · rw [if_neg hle] at h
    simp at h

theorem atoi_fail_inv {s : String} {e : String} (h : atoi s = .error e) :
    maxInt < digitsVal s ∧ e = atoiErrMsg s := by
  unfold atoi at h
  by_cases hle : digitsVal s ≤ maxInt
  · rw [if_pos hle] at h
    simp at h
  · rw [if_neg hle] at h
    injection h with h2
    exact ⟨lt_of_not_le hle, h2.symm⟩

theorem entryStep_emit_inv {ver : Int} {rd : String → Except String String}
    {f : String} {u : Upgrade} (h : entryStep ver rd f = .emit u) :
    leadingDigits f ≠ "" ∧ atoi (leadingDigits f) = .ok u.Id ∧ u.Script = f ∧
      rd f = .ok u.Content ∧ ver < u.Id := by
  unfold entryStep at h
  by_cases hm : leadingDigits f = ""
  · simp [hm] at h
  · rw [if_neg hm] at h
    cases ha : atoi (leadingDigits f) with
    | error e => rw [ha] at h; simp at h
    | ok v =>
      rw [ha] at h
      dsimp only at h
      by_cases hv : ver < v
      · rw [if_pos hv] at h
        cases hr : rd f with
        | error e2 => rw [hr] at h; simp at h
        | ok b =>
          rw [hr] at h
          dsimp only at h
          simp only [EStep.emit.injEq] at h
          subst h
          exact ⟨hm, rfl, rfl, rfl, hv⟩
      · rw [if_neg hv] at h
        simp at h

theorem entryStep_skip_inv {ver : Int} {rd : String → Except String String}
    {f : String} (h : entryStep ver rd f = .skip) :
    leadingDigits f = "" ∨ ∃ v : Int, atoi (leadingDigits f) = .ok v ∧ ¬ ver < v := by
  by_cases hm : leadingDigits f = ""
  · exact Or.inl hm
  · right
    unfold entryStep at h
    rw [if_neg hm] at h
    cases ha : atoi (leadingDigits f) with
    | error e => rw [ha] at h; simp at h
    | ok v =>
      rw [ha] at h
      dsimp only at h
      by_cases hv : ver < v
      · rw [if_pos hv] at h
        cases hr : rd f with
        | error e2 => rw [hr] at h; simp at h
        | ok b => rw [hr] at h; simp at h
      · exact ⟨v, rfl, hv⟩

theorem entryStep_skip_of_le {ver : Int} (rd : String → Except String String)
    {f : String} {v : Int} (ha : atoi (leadingDigits f) = .ok v) (hv : ¬ ver < v) :
    entryStep ver rd f = .skip := by
  unfold entryStep
  by_cases hm : leadingDigits f = ""
  · rw [if_pos hm]
  · rw [if_neg hm, ha]
    dsimp only
    rw [if_neg hv]

theorem entryStep_skip_of_empty {ver : Int} (rd : String → Except String String)
    {f : String} (hm : leadingDigits f = "") : entryStep ver rd f = .skip := by
  unfold entryStep
  rw [if_pos hm]

theorem entryStep_fail_nil_inv {ver : Int} {rd : String → Except String String}
    {f : String} {e : String} (h : entryStep ver rd f = .fail [] e) :
    leadingDigits f ≠ "" ∧ atoi (leadingDigits f) = .error e := by
  unfold entryStep at h
  by_cases hm : leadingDigits f = ""
  · rw [if_pos hm] at h
    simp at h
  · refine ⟨hm, ?_⟩
    rw [if_neg hm] at h
    cases ha : atoi (leadingDigits f) with
    | error e2 =>
      rw [ha] at h
      simp only [EStep.fail.injEq] at h
      rw [h.2]
    | ok v =>
      rw [ha] at h
      dsimp only at h
      by_cases hv : ver < v
      · rw [if_pos hv] at h
        cases hr : rd f with
        | error e2 => rw [hr] at h; simp at h
        | ok b => rw [hr] at h; simp at h
      · rw [if_neg hv] at h
        simp at h

theorem discGo_closed (ver : Int) (rd : String → Except String String) :
    ∀ l, (discGo ver rd l).closed = 1 := by
  intro l
  induction l with
  | nil => rfl
  | cons f fs ih =>
    cases h : entryStep ver rd f with
    | skip => simp [discGo, h, ih]
    | emit u => simp [discGo, h, ih]
    | fail pl e => simp [discGo, h]

theorem discGo_break (ver : Int) (rd : String → Except String String)
    (f : String) (pl : List LogEv) (e : String)
    (hf : entryStep ver rd f = .fail pl e) :
    ∀ (l1 l2 : List String), (∀ x ∈ l1, stepFails (entryStep ver rd x) = false) →
      discGo ver rd (l1 ++ f :: l2) =
        ⟨discEmit ver rd l1, 1, prepLog (discEmit ver rd l1) ++ pl ++ [.err e], l2⟩ := by
  intro l1
  induction l1 with
  | nil =>
    intro l2 _
    simp [discGo, hf, discEmit, prepLog]
  | cons x l1 ih =>
    intro l2 hok
    have hx := hok x (List.mem_cons_self x l1)
    have hrest : ∀ y ∈ l1, stepFails (entryStep ver rd y) = false :=
      fun y hy => hok y (List.mem_cons_of_mem x hy)
    rcases stepFails_false_cases hx with hs | ⟨u, hs⟩
    · simp [List.cons_append, discGo, hs, ih l2 hrest, discEmit, List.filterMap_cons,
        stepEmit]
    · have hscript : u.Script = x := (entryStep_emit_inv hs).2.2.1
      simp [List.cons_append, discGo, hs, ih l2 hrest, discEmit, List.filterMap_cons,
        stepEmit, prepLog, hscript]

theorem discGo_ok (ver : Int) (rd : String → Except String String) :
    ∀ l, (∀ x ∈ l, stepFails (entryStep ver rd x) = false) →
      discGo ver rd l = ⟨discEmit ver rd l, 1, prepLog (discEmit ver rd l), []⟩ := by
  intro l
  induction l with
  | nil => intro _; simp [discGo, discEmit, prepLog]
  | cons x l ih =>
    intro hok
    have hx := hok x (List.mem_cons_self x l)
    have hrest : ∀ y ∈ l, stepFails (entryStep ver rd y) = false :=
      fun y hy => hok y (List.mem_cons_of_mem x hy)
    rcases stepFails_false_cases hx with hs | ⟨u, hs⟩
    · simp [discGo, hs, ih hrest, discEmit, List.filterMap_cons, stepEmit]
    · have hscript : u.Script = x := (entryStep_emit_inv hs).2.2.1
      simp [discGo, hs, ih hrest, discEmit, List.filterMap_cons, stepEmit, prepLog,
        hscript]

theorem discGo_skip_all (ver : Int) (rd : String → Except String String) :
    ∀ l, (∀ x ∈ l, entryStep ver rd x = .skip) → discGo ver rd l = ⟨[], 1, [], []⟩ := by
  intro l
  induction l with
  | nil => intro _; rfl
  | cons x l ih =>
    intro h
    have hx := h x (List.mem_cons_self x l)
    have hrest : ∀ y ∈ l, entryStep ver rd y = .skip :=
      fun y hy => h y (List.mem_cons_of_mem x hy)
    simp [discGo, hx, ih hrest]

theorem discGo_emitted_from (ver : Int) (rd : String → Except String String) :
    ∀ l : List String,
      ((discGo ver rd l).emitted.map (fun u => u.Script)).Sublist l ∧
      (∀ u ∈ (discGo ver rd l).emitted, entryStep ver rd u.Script = .emit u) := by
  intro l
  induction l with
  | nil =>
    refine ⟨List.nil_sublist _, ?_⟩
    intro u hu
    simp [discGo] at hu
  | cons f fs ih =>
    cases h : entryStep ver rd f with
    | skip =>
      have hd : discGo ver rd (f :: fs) = discGo ver rd fs := by simp [discGo, h]
      rw [hd]
      exact ⟨ih.1.cons f, ih.2⟩
    | emit u =>
      have hscript : u.Script = f := (entryStep_emit_inv h).2.2.1
      have hd : (discGo ver rd (f :: fs)).emitted = u :: (discGo ver rd fs).emitted := by
        simp [discGo, h]
      rw [hd]
      constructor
      · simpa [hscript] using ih.1.cons₂ f
      · intro w hw
        rcases List.mem_cons.mp hw with h1 | h2
        · subst h1; rw [hscript]; exact h
        · exact ih.2 w h2
    | fail pl e =>
      have hd : (discGo ver rd (f :: fs)).emitted = [] := by simp [discGo, h]
      rw [hd]
      refine ⟨List.nil_sublist _, ?_⟩
      intro u hu
      simp at hu

theorem mem_discEmit {ver : Int} {rd : String → Except String String}
    {l : List String} {u : Upgrade} :
    u ∈ discEmit ver rd l ↔ ∃ f ∈ l, entryStep ver rd f = .emit u := by
  unfold discEmit
  rw [List.mem_filterMap]
  constructor
  · rintro ⟨f, hf, hstep⟩
    exact ⟨f, hf, stepEmit_eq_some.mp hstep⟩
  · rintro ⟨f, hf, hstep⟩
    exact ⟨f, hf, stepEmit_eq_some.mpr hstep⟩

/-! ## Helper lemmas: ledger and bootstrap -/

theorem ledgerMax_nonneg : ∀ l : List (Int × String), 0 ≤ ledgerMax l := by
  intro l
  induction l with
  | nil => exact le_refl 0
  | cons p l ih => exact le_trans ih (le_max_right p.1 (ledgerMax l))

theorem ledgerMax_append (a b : List (Int × String)) :
    ledgerMax (a ++ b) = max (ledgerMax a) (ledgerMax b) := by
  induction a with
  | nil => exact (max_eq_right (ledgerMax_nonneg b)).symm
  | cons p a ih =>
    show max p.1 (ledgerMax (a ++ b)) = max (max p.1 (ledgerMax a)) (ledgerMax b)
    rw [ih, max_assoc]

theorem le_ledgerMax (p : Int × String) :
    ∀ l : List (Int × String), p ∈ l → p.1 ≤ ledgerMax l := by
  intro l
  induction l with
  | nil => intro h; cases h
  | cons q l ih =>
    intro h
    rcases List.mem_cons.mp h with h1 | h2
    · subst h1; exact le_max_left _ _
    · exact le_trans (ih h2) (le_max_right _ _)

theorem ledgerRows_allOk (env : Upgrade → TxEnv) :
    ∀ l : List Upgrade, (∀ x ∈ l, (env x).commitErr = none) →
      ledgerRows env l = l.map (fun u => (u.Id, u.Script)) := by
  intro l h
  unfold ledgerRows
  have : l.filter (fun u => (env u).commitErr.isNone) = l := by
    rw [List.filter_eq_self]
    intro a ha
    rw [h a ha]
    rfl
  rw [this]

/-- The `initDb` attempt recurses exactly when `getDb` succeeded, the ping
reported the target database missing, and `createDb` succeeded. -/
theorem bootStep_retry_iff (dbname : String) (e : BootEnv) :
    bootStep dbname e = .retry ↔
      (e.dbOk = true ∧ e.pingErr = some (dbMissingMsg dbname) ∧ e.createOk = true) := by
  unfold bootStep
  cases hdb : e.dbOk with
  | false => simp
  | true =>
    simp only [if_true]
    cases hp : e.pingErr with
    | none =>
      cases ht : e.tableErr with
      | some m => simp
      | none =>
        cases hv : getVersion e.versionRes with
        | mk v o =>
          cases o with
          | none => simp
          | some q => simp
    | some msg =>
      by_cases hmsg : msg = dbMissingMsg dbname
      · subst hmsg
        cases hc : e.createOk with
        | false => simp
        | true => simp
      · simp [hmsg]

/-- A non-recursing attempt yields a final answer with any positive fuel. -/
theorem initDbFuel_done (dbname : String) (env : Nat → BootEnv) (fuel k : Nat)
    (h : ¬((env k).dbOk = true ∧ (env k).pingErr = some (dbMissingMsg dbname) ∧
          (env k).createOk = true)) :
    ∃ r, initDbFuel dbname env (fuel + 1) k = some r := by
  cases hb : bootStep dbname (env k) with
  | done r =>
    refine ⟨r, ?_⟩
    simp [initDbFuel, hb]
  | retry => exact absurd ((bootStep_retry_iff dbname (env k)).mp hb) h

/-! ## Concrete fixtures used by counterexamples and witnesses -/

/-- Read environment in which every file reads successfully, its content
being its own name. -/
def rdW : String → Except String String := fun f => .ok f

/-- A directory-entry name whose leading digit run (twenty nines) exceeds
`math.MaxInt` for a 64-bit platform. -/
def bigName : String := "99999999999999999999.sql"

def uA : Upgrade := ⟨1, "001_a.sql", "create table a(x int);"⟩

def uB : Upgrade := ⟨2, "002_b.sql", "create table b(x int);"⟩

def uC : Upgrade := ⟨3, "003_c.sql", "create table c(x int);"⟩

/-- Transaction environment in which the candidate with version 2 fails at
the ledger insert and every other candidate succeeds. -/
def env1 : Upgrade → TxEnv := fun x =>
  if x.Id = 2 then ⟨none, some "pq: duplicate key value", none, none⟩ else txOk

/-- Transaction environment in which every commit fails (and nothing else
does). -/
def commitFail : Upgrade → TxEnv :=
  fun _ => ⟨none, none, none, some "pq: could not commit"⟩

/-- Read environment that fails on `004_d.sql` and succeeds elsewhere. -/
def rd6 : String → Except String String := fun s =>
  if s = "004_d.sql" then .error "open 004_d.sql: permission denied" else .ok s

/-! ## Claims -/

/-- Claim C1: if applying the candidate with version N fails at
transaction-begin, at the ledger insert, or at execution of the script body,
then the transaction is rolled back (when one was opened), the failing
script's name and the error are logged, the output sequence is closed, no
candidate received after it is applied, and the ledger contains no entry for
version N. -/
theorem upgrade_fail_stop (env : Upgrade → TxEnv) (u : Upgrade) (e : String)
    (opened : Bool) (pre rest : List Upgrade) (led : List (Int × String))
    (hu : txStep (env u) = .failedAt e opened)
    (hpre : ∀ x ∈ pre, txBodyOk (env x))
    (hledN : ∀ p ∈ led, p.1 ≠ u.Id)
    (hpreN : ∀ x ∈ pre, x.Id ≠ u.Id) :
    (ExecuteUpgradeScript env true led (pre ++ u :: rest)).closed = 1 ∧
    (ExecuteUpgradeScript env true led (pre ++ u :: rest)).emitted = pre ∧
    LogEv.err e ∈ (ExecuteUpgradeScript env true led (pre ++ u :: rest)).log ∧
    LogEv.failedOn u.Script ∈ (ExecuteUpgradeScript env true led (pre ++ u :: rest)).log ∧
    (ExecuteUpgradeScript env true led (pre ++ u :: rest)).rollbacks
      = (if opened then [u.Script] else []) ∧
    (∀ p ∈ (ExecuteUpgradeScript env true led (pre ++ u :: rest)).ledger, p.1 ≠ u.Id) := by
  have hE : ExecuteUpgradeScript env true led (pre ++ u :: rest)
      = execGo env led (pre ++ u :: rest) := rfl
  rw [hE, execGo_break env u e opened hu pre led rest hpre]
  refine ⟨rfl, rfl, ?_, ?_, rfl, ?_⟩
  · simp
  · simp
  · intro p hp
    rcases List.mem_append.mp hp with h1 | h2
    · exact hledN p h1
    · unfold ledgerRows at h2
      rcases List.mem_map.mp h2 with ⟨x, hxf, hxe⟩
      have hxpre : x ∈ pre := List.mem_of_mem_filter hxf
      rw [← hxe]
      exact hpreN x hxpre

theorem upgrade_fail_stop_witness :
    txStep (env1 uB) = .failedAt "pq: duplicate key value" true ∧
    (∀ x ∈ [uA], txBodyOk (env1 x)) ∧
    (∀ p ∈ ([] : List (Int × String)), p.1 ≠ uB.Id) ∧
    (∀ x ∈ [uA], x.Id ≠ uB.Id) ∧
    ((ExecuteUpgradeScript env1 true [] ([uA] ++ uB :: [uC])).closed = 1 ∧
      (ExecuteUpgradeScript env1 true [] ([uA] ++ uB :: [uC])).emitted = [uA] ∧
      LogEv.err "pq: duplicate key value"
        ∈ (ExecuteUpgradeScript env1 true [] ([uA] ++ uB :: [uC])).log ∧
      LogEv.failedOn uB.Script
        ∈ (ExecuteUpgradeScript env1 true [] ([uA] ++ uB :: [uC])).log ∧
      (ExecuteUpgradeScript env1 true [] ([uA] ++ uB :: [uC])).rollbacks
        = (if true then [uB.Script] else []) ∧
      (∀ p ∈ (ExecuteUpgradeScript env1 true [] ([uA] ++ uB :: [uC])).ledger,
        p.1 ≠ uB.Id)) :=
  ⟨by decide, by decide, by decide, by decide,
    upgrade_fail_stop env1 uB "pq: duplicate key value" true [uA] [uC] []
      (by decide) (by decide) (by decide) (by decide)⟩

/-- Claim C2 (counterexample): on the exit path where the database connection
cannot be obtained (`getDb` fails), the executor returns without closing its
output sequence — `close(s)` runs zero times, not exactly once as claimed. -/
theorem executor_missing_db_cex :
    (ExecuteUpgradeScript (fun _ => txOk) false [] [uA]).closed = 0 ∧
    (ExecuteUpgradeScript (fun _ => txOk) false [] [uA]).emitted = [] := by
  exact ⟨rfl, rfl⟩

/-- Claim C2 (amended): when a database connection is obtained, the
executor's output sequence is closed exactly once and the connection is
released on every exit path; when the connection cannot be obtained, the
executor returns without closing the output sequence at all (and holds no
connection). -/
theorem executor_close_release (env : Upgrade → TxEnv) (led : List (Int × String))
    (input : List Upgrade) :
    (ExecuteUpgradeScript env true led input).closed = 1 ∧
    (ExecuteUpgradeScript env true led input).dbReleased = true ∧
    (ExecuteUpgradeScript env false led input).closed = 0 := by
  have h := execGo_closed env input led
  exact ⟨h.1, h.2, rfl⟩

/-- Claim C3 (counterexample): in an environment where the "database does
not exist" ping answer persists while every `createDb` call succeeds, the
bootstrap recursion is still running after 5 and even 60 attempts — the
re-run is not bounded by a retry counter of 1 and need not terminate. -/
theorem bootstrap_unbounded_cex :
    initDbFuel "mydb" (persistMissing "mydb") 5 0 = none ∧
    initDbFuel "mydb" (persistMissing "mydb") 60 0 = none := ⟨rfl, rfl⟩

/-- Claim C3 (amended): `initDb` re-runs itself by plain recursion with no
retry counter; it terminates with at most one re-run exactly when the
re-run's own attempt does not again find the database missing with a
successful creation — termination is a property of the environment, not of
the code. -/
theorem bootstrap_retry_terminates (dbname : String) (env : Nat → BootEnv)
    (h : ¬((env 1).dbOk = true ∧ (env 1).pingErr = some (dbMissingMsg dbname) ∧
          (env 1).createOk = true)) :
    ∃ r, initDbFuel dbname env 2 0 = some r := by
  by_cases h0 : bootStep dbname (env 0) = .retry
  · have hstep : initDbFuel dbname env 2 0 = initDbFuel dbname env 1 1 := by
      simp [initDbFuel, h0]
    rw [hstep]
    exact initDbFuel_done dbname env 0 1 h
  · cases hb : bootStep dbname (env 0) with
    | done r => exact ⟨r, by simp [initDbFuel, hb]⟩
    | retry => exact absurd hb h0

theorem bootstrap_retry_terminates_witness :
    ¬(((fun _ => honestBoot [(3, "0003_z.sql")]) 1).dbOk = true ∧
      ((fun _ => honestBoot [(3, "0003_z.sql")]) 1).pingErr = some (dbMissingMsg "mydb") ∧
      ((fun _ => honestBoot [(3, "0003_z.sql")]) 1).createOk = true) ∧
    ∃ r, initDbFuel "mydb" (fun _ => honestBoot [(3, "0003_z.sql")]) 2 0 = some r :=
  ⟨by decide, bootstrap_retry_terminates "mydb" (fun _ => honestBoot [(3, "0003_z.sql")])
    (by decide)⟩

/-- Claim C4: under error-free processing of the listing, a directory entry
is selected as a candidate if and only if its name begins with a run of
decimal digits whose parsed value exceeds the current version, and the
parsed value becomes the candidate's version; a name with no leading digit
is silently skipped. -/
theorem discover_select_iff (ver : Int) (rd : String → Except String String)
    (files : List String)
    (hok : ∀ x ∈ files, stepFails (entryStep ver rd x) = false) :
    (∀ f : String,
      (∃ u ∈ (GetUpgradeScripts (.ok files) ver rd).emitted, u.Script = f) ↔
      (f ∈ files ∧ leadingDigits f ≠ "" ∧
        ∃ v : Int, atoi (leadingDigits f) = .ok v ∧ ver < v)) ∧
    (∀ u ∈ (GetUpgradeScripts (.ok files) ver rd).emitted,
      atoi (leadingDigits u.Script) = .ok u.Id ∧ ver < u.Id) := by
  have hG : GetUpgradeScripts (.ok files) ver rd
      = ⟨discEmit ver rd files, 1, prepLog (discEmit ver rd files), []⟩ :=
    discGo_ok ver rd files hok
  rw [hG]
  dsimp only
  constructor
  · intro f
    constructor
    · rintro ⟨u, hu, hscript⟩
      rcases mem_discEmit.mp hu with ⟨g, hg, hstep⟩
      obtain ⟨hne, ha, hs, hr, hv⟩ := entryStep_emit_inv hstep
      rw [hs] at hscript
      subst hscript
      exact ⟨hg, hne, u.Id, ha, hv⟩
    · rintro ⟨hf, hne, v, ha, hv⟩
      cases hr : rd f with
      | error e2 =>
        exfalso
        have hstep : entryStep ver rd f = .fail [.prep f] e2 := by
          unfold entryStep
          rw [if_neg hne, ha]
          dsimp only
          rw [if_pos hv, hr]
        have hb := hok f hf
        rw [hstep] at hb
        simp [stepFails] at hb
      | ok b =>
        have hstep : entryStep ver rd f = .emit ⟨v, f, b⟩ := by
          unfold entryStep
          rw [if_neg hne, ha]
          dsimp only
          rw [if_pos hv, hr]
        exact ⟨⟨v, f, b⟩, mem_discEmit.mpr ⟨f, hf, hstep⟩, rfl⟩
  · intro u hu
    rcases mem_discEmit.mp hu with ⟨g, hg, hstep⟩
    obtain ⟨hne, ha, hs, hr, hv⟩ := entryStep_emit_inv hstep
    rw [hs]
    exact ⟨ha, hv⟩

theorem discover_select_iff_witness :
    (∀ x ∈ ["notaversion.sql", "003_init.sql"], stepFails (entryStep 2 rdW x) = false) ∧
    ((∀ f : String,
      (∃ u ∈ (GetUpgradeScripts (.ok ["notaversion.sql", "003_init.sql"]) 2 rdW).emitted,
        u.Script = f) ↔
      (f ∈ ["notaversion.sql", "003_init.sql"] ∧ leadingDigits f ≠ "" ∧
        ∃ v : Int, atoi (leadingDigits f) = .ok v ∧ 2 < v)) ∧
    (∀ u ∈ (GetUpgradeScripts (.ok ["notaversion.sql", "003_init.sql"]) 2 rdW).emitted,
      atoi (leadingDigits u.Script) = .ok u.Id ∧ 2 < u.Id)) :=
  ⟨by decide, discover_select_iff 2 rdW ["notaversion.sql", "003_init.sql"] (by decide)⟩

/-- Claim C5: the discoverer emits candidates in the order of the directory
listing (its output names form a sublist of the listing), and when the
listing's digit-prefixed names carry strictly increasing parsed values
(zero-padded filenames), the emitted candidate versions are strictly
increasing and the executor applies the candidates in exactly that order. -/
theorem discover_listing_order (ver : Int) (rd : String → Except String String)
    (files : List String) (led : List (Int × String)) (env : Upgrade → TxEnv)
    (hp : files.Pairwise (fun a b => leadingDigits a ≠ "" → leadingDigits b ≠ "" →
        (digitsVal (leadingDigits a) : Int) < (digitsVal (leadingDigits b) : Int)))
    (henv : ∀ x : Upgrade, txBodyOk (env x)) :
    ((GetUpgradeScripts (.ok files) ver rd).emitted.map (fun u => u.Script)).Sublist files ∧
    ((GetUpgradeScripts (.ok files) ver rd).emitted.map (fun u => u.Id)).Pairwise
      (fun a b => a < b) ∧
    (ExecuteUpgradeScript env true led
        (GetUpgradeScripts (.ok files) ver rd).emitted).emitted
      = (GetUpgradeScripts (.ok files) ver rd).emitted := by
  have hG : GetUpgradeScripts (.ok files) ver rd = discGo ver rd files := rfl
  have hfrom := discGo_emitted_from ver rd files
  rw [hG]
  refine ⟨hfrom.1, ?_, ?_⟩
  · have hpw := List.Pairwise.sublist hfrom.1 hp
    rw [List.pairwise_map] at hpw
    have hid : ∀ u ∈ (discGo ver rd files).emitted,
        leadingDigits u.Script ≠ "" ∧ u.Id = (digitsVal (leadingDigits u.Script) : Int) := by
      intro u hu
      have hstep := hfrom.2 u hu
      obtain ⟨hne, ha, _, _, _⟩ := entryStep_emit_inv hstep
      exact ⟨hne, (atoi_ok_inv ha).1⟩
    have hpw2 : (discGo ver rd files).emitted.Pairwise (fun a b => a.Id < b.Id) := by
      refine List.Pairwise.imp_of_mem ?_ hpw
      intro a b ha hb hr
      obtain ⟨hna, hia⟩ := hid a ha
      obtain ⟨hnb, hib⟩ := hid b hb
      rw [hia, hib]
      exact hr hna hnb
    rw [List.pairwise_map]
    exact hpw2
  · have hall : ∀ x ∈ (discGo ver rd files).emitted, txBodyOk (env x) :=
      fun x _ => henv x
    rw [show ExecuteUpgradeScript env true led (discGo ver rd files).emitted
        = execGo env led (discGo ver rd files).emitted from rfl,
      execGo_ok env (discGo ver rd files).emitted led hall]

theorem discover_listing_order_witness :
    (["001_a.sql", "002_b.sql", "010_c.sql"].Pairwise
      (fun a b => leadingDigits a ≠ "" → leadingDigits b ≠ "" →
        (digitsVal (leadingDigits a) : Int) < (digitsVal (leadingDigits b) : Int))) ∧
    (∀ x : Upgrade, txBodyOk ((fun _ => txOk) x)) ∧
    (((GetUpgradeScripts (.ok ["001_a.sql", "002_b.sql", "010_c.sql"]) 0 rdW).emitted.map
        (fun u => u.Script)).Sublist ["001_a.sql", "002_b.sql", "010_c.sql"] ∧
      ((GetUpgradeScripts (.ok ["001_a.sql", "002_b.sql", "010_c.sql"]) 0 rdW).emitted.map
        (fun u => u.Id)).Pairwise (fun a b => a < b) ∧
      (ExecuteUpgradeScript (fun _ => txOk) true []
          (GetUpgradeScripts (.ok ["001_a.sql", "002_b.sql", "010_c.sql"]) 0 rdW).emitted).emitted
        = (GetUpgradeScripts (.ok ["001_a.sql", "002_b.sql", "010_c.sql"]) 0 rdW).emitted) :=
  ⟨by decide, fun _ => ⟨rfl, rfl, rfl⟩,
    discover_listing_order 0 rdW ["001_a.sql", "002_b.sql", "010_c.sql"] [] (fun _ => txOk)
      (by decide) (fun _ => ⟨rfl, rfl, rfl⟩)⟩

/-- Claim C6 (counterexample): the error returned by `tx.Commit()` is
discarded without being logged — the run's log holds only the "Running:"
event, no error event — and the candidate is even reported as completed
while its ledger row was never persisted. -/
theorem commit_error_unlogged_cex :
    (commitFail uB).commitErr = some "pq: could not commit" ∧
    (ExecuteUpgradeScript commitFail true [] [uB]).log = [.running "002_b.sql"] ∧
    (ExecuteUpgradeScript commitFail true [] [uB]).emitted = [uB] ∧
    (ExecuteUpgradeScript commitFail true [] [uB]).ledger = [] := by
  refine ⟨rfl, rfl, rfl, rfl⟩

/-- Claim C6 (amended): every error the code checks — transaction begin, the
two statement executions, the directory read, the version parse and the file
read — is logged at the point of detection, and the "no ledger rows" case of
the version lookup is treated as version 0 rather than an error; errors
returned by `tx.Commit()` (and `tx.Rollback()`) are, however, discarded
unlogged. -/
theorem checked_errors_logged (env : Upgrade → TxEnv) (u : Upgrade) (e : String)
    (opened : Bool) (pre rest : List Upgrade) (led : List (Int × String))
    (ver : Int) (rd : String → Except String String) (l1 l2 : List String)
    (f : String) (pl : List LogEv) (e2 e3 : String)
    (hu : txStep (env u) = .failedAt e opened)
    (hpre : ∀ x ∈ pre, txBodyOk (env x))
    (h1 : ∀ x ∈ l1, stepFails (entryStep ver rd x) = false)
    (h2 : entryStep ver rd f = .fail pl e2) :
    LogEv.err e ∈ (ExecuteUpgradeScript env true led (pre ++ u :: rest)).log ∧
    LogEv.err e2 ∈ (GetUpgradeScripts (.ok (l1 ++ f :: l2)) ver rd).log ∧
    LogEv.err e3 ∈ (GetUpgradeScripts (.error e3) ver rd).log ∧
    getVersion (.error .noRows) = (0, none) := by
  refine ⟨?_, ?_, ?_, rfl⟩
  · rw [show ExecuteUpgradeScript env true led (pre ++ u :: rest)
        = execGo env led (pre ++ u :: rest) from rfl,
      execGo_break env u e opened hu pre led rest hpre]
    simp
  · rw [show GetUpgradeScripts (.ok (l1 ++ f :: l2)) ver rd
        = discGo ver rd (l1 ++ f :: l2) from rfl,
      discGo_break ver rd f pl e2 h2 l1 l2 h1]
    simp
  · simp [GetUpgradeScripts]

theorem checked_errors_logged_witness :
    txStep (env1 uB) = .failedAt "pq: duplicate key value" true ∧
    (∀ x ∈ [uA], txBodyOk (env1 x)) ∧
    (∀ x ∈ ["001_a.sql"], stepFails (entryStep 0 rd6 x) = false) ∧
    entryStep 0 rd6 "004_d.sql"
      = .fail [.prep "004_d.sql"] "open 004_d.sql: permission denied" ∧
    (LogEv.err "pq: duplicate key value"
        ∈ (ExecuteUpgradeScript env1 true [] ([uA] ++ uB :: [])).log ∧
      LogEv.err "open 004_d.sql: permission denied"
        ∈ (GetUpgradeScripts (.ok (["001_a.sql"] ++ "004_d.sql" :: ["005_e.sql"])) 0 rd6).log ∧
      LogEv.err "readdir scripts: no such directory"
        ∈ (GetUpgradeScripts (.error "readdir scripts: no such directory") 0 rd6).log ∧
      getVersion (.error .noRows) = (0, none)) :=
  ⟨by decide, by decide, by decide, by decide,
    checked_errors_logged env1 uB "pq: duplicate key value" true [uA] [] [] 0 rd6
      ["001_a.sql"] ["005_e.sql"] "004_d.sql" [.prep "004_d.sql"]
      "open 004_d.sql: permission denied" "readdir scripts: no such directory"
      (by decide) (by decide) (by decide) (by decide)⟩

/-- Claim C7: when the ping succeeds and the ledger table exists, the
bootstrap returns ready=true with the maximum version recorded in the ledger
(0 for an empty ledger); a version-lookup error other than `sql.ErrNoRows`
yields not-ready with version 0; `sql.ErrNoRows` itself is mapped to
version 0 without error. -/
theorem bootstrap_reports_version (dbname : String) (l : List (Int × String))
    (m : String) :
    initDbFuel dbname (fun _ => honestBoot l) 1 0 = some (true, ledgerMax l) ∧
    initDbFuel dbname (fun _ => honestBoot []) 1 0 = some (true, 0) ∧
    initDbFuel dbname (fun _ => failQueryBoot m) 1 0 = some (false, 0) ∧
    getVersion (.error .noRows) = (0, none) := ⟨rfl, rfl, rfl, rfl⟩

/-- Claim C8: on every discoverer run the output channel is closed exactly
once; on a directory-read error the error is logged and nothing is emitted;
on the first per-entry (parse or file-read) failure the error is logged, only
the entries before it contributed candidates, and the remaining entries are
left unprocessed. -/
theorem discover_close_contract (dirRes : Except String (List String)) (ver : Int)
    (rd : String → Except String String) (e0 : String) (l1 l2 : List String)
    (f : String) (pl : List LogEv) (e : String)
    (h1 : ∀ x ∈ l1, stepFails (entryStep ver rd x) = false)
    (h2 : entryStep ver rd f = .fail pl e) :
    (GetUpgradeScripts dirRes ver rd).closed = 1 ∧
    GetUpgradeScripts (.error e0) ver rd = ⟨[], 1, [.err e0], []⟩ ∧
    GetUpgradeScripts (.ok (l1 ++ f :: l2)) ver rd =
      ⟨discEmit ver rd l1, 1, prepLog (discEmit ver rd l1) ++ pl ++ [.err e], l2⟩ := by
  refine ⟨?_, rfl, ?_⟩
  · cases dirRes with
    | error e4 => rfl
    | ok files => exact discGo_closed ver rd files
  · exact discGo_break ver rd f pl e h2 l1 l2 h1

theorem discover_close_contract_witness :
    (∀ x ∈ ["001_a.sql"], stepFails (entryStep 0 rd6 x) = false) ∧
    entryStep 0 rd6 "004_d.sql"
      = .fail [.prep "004_d.sql"] "open 004_d.sql: permission denied" ∧
    ((GetUpgradeScripts (.ok ["001_a.sql", "004_d.sql", "005_e.sql"]) 0 rd6).closed = 1 ∧
      GetUpgradeScripts (.error "readdir: failure") 0 rd6
        = ⟨[], 1, [.err "readdir: failure"], []⟩ ∧
      GetUpgradeScripts (.ok (["001_a.sql"] ++ "004_d.sql" :: ["005_e.sql"])) 0 rd6 =
        ⟨discEmit 0 rd6 ["001_a.sql"], 1,
          prepLog (discEmit 0 rd6 ["001_a.sql"]) ++ [.prep "004_d.sql"]
            ++ [.err "open 004_d.sql: permission denied"], ["005_e.sql"]⟩) :=
  ⟨by decide, by decide,
    discover_close_contract (.ok ["001_a.sql", "004_d.sql", "005_e.sql"]) 0 rd6
      "readdir: failure" ["001_a.sql"] ["005_e.sql"] "004_d.sql" [.prep "004_d.sql"]
      "open 004_d.sql: permission denied" (by decide) (by decide)⟩

/-- Claim C9: after a first pipeline run in which discovery is error-free and
every emitted candidate's transaction fully succeeds, the version the
bootstrap reports from the resulting ledger is at least every candidate
version, so a second scan of the same directory emits no candidates and the
second executor run applies nothing and leaves the ledger unchanged. -/
theorem second_run_no_scripts (files : List String) (rd : String → Except String String)
    (L0 : List (Int × String)) (env : Upgrade → TxEnv)
    (hok : ∀ f ∈ files, stepFails (entryStep (ledgerMax L0) rd f) = false)
    (henv : ∀ x : Upgrade, txAllOk (env x)) :
    (secondScan files rd L0 env).emitted = [] ∧
    ExecuteUpgradeScript env true (firstRunLedger files rd L0 env)
        (secondScan files rd L0 env).emitted
      = ⟨[], 1, [], firstRunLedger files rd L0 env, [], true⟩ := by
  have henvB : ∀ x : Upgrade, txBodyOk (env x) :=
    fun x => ⟨(henv x).1, (henv x).2.1, (henv x).2.2.1⟩
  have henvC : ∀ x : Upgrade, (env x).commitErr = none := fun x => (henv x).2.2.2
  have hled : firstRunLedger files rd L0 env
      = L0 ++ (discEmit (ledgerMax L0) rd files).map (fun u => (u.Id, u.Script)) := by
    unfold firstRunLedger
    rw [show GetUpgradeScripts (.ok files) (ledgerMax L0) rd
        = discGo (ledgerMax L0) rd files from rfl,
      discGo_ok (ledgerMax L0) rd files hok]
    dsimp only
    rw [show ExecuteUpgradeScript env true L0 (discEmit (ledgerMax L0) rd files)
        = execGo env L0 (discEmit (ledgerMax L0) rd files) from rfl,
      execGo_ok env (discEmit (ledgerMax L0) rd files) L0 (fun x _ => henvB x)]
    dsimp only
    rw [ledgerRows_allOk env (discEmit (ledgerMax L0) rd files) (fun x _ => henvC x)]
  have hv01 : ledgerMax L0 ≤ ledgerMax (firstRunLedger files rd L0 env) := by
    rw [hled, ledgerMax_append]
    exact le_max_left _ _
  have hskip : ∀ f ∈ files,
      entryStep (ledgerMax (firstRunLedger files rd L0 env)) rd f = .skip := by
    intro f hf
    rcases stepFails_false_cases (hok f hf) with hs | ⟨u, hs⟩
    · rcases entryStep_skip_inv hs with hm | ⟨v, ha, hv⟩
      · exact entryStep_skip_of_empty rd hm
      · exact entryStep_skip_of_le rd ha (fun hlt => hv (lt_of_le_of_lt hv01 hlt))
    · obtain ⟨hne, ha, hs2, hr, hvlt⟩ := entryStep_emit_inv hs
      have hmem : u ∈ discEmit (ledgerMax L0) rd files := mem_discEmit.mpr ⟨f, hf, hs⟩
      have hrow : (u.Id, u.Script) ∈ firstRunLedger files rd L0 env := by
        rw [hled]
        exact List.mem_append.mpr (Or.inr (List.mem_map.mpr ⟨u, hmem, rfl⟩))
      have hle : u.Id ≤ ledgerMax (firstRunLedger files rd L0 env) :=
        le_ledgerMax (u.Id, u.Script) _ hrow
      exact entryStep_skip_of_le rd ha (fun hlt => absurd hle (not_le.mpr hlt))
  have hscan : secondScan files rd L0 env = ⟨[], 1, [], []⟩ := by
    unfold secondScan
    rw [show GetUpgradeScripts (.ok files)
          (ledgerMax (firstRunLedger files rd L0 env)) rd
        = discGo (ledgerMax (firstRunLedger files rd L0 env)) rd files from rfl]
    exact discGo_skip_all _ rd files hskip
  refine ⟨?_, ?_⟩
  · rw [hscan]
  · rw [hscan]
    rfl

theorem second_run_no_scripts_witness :
    (∀ f ∈ ["001_a.sql", "002_b.sql"],
      stepFails (entryStep (ledgerMax []) rdW f) = false) ∧
    (∀ x : Upgrade, txAllOk ((fun _ => txOk) x)) ∧
    ((secondScan ["001_a.sql", "002_b.sql"] rdW [] (fun _ => txOk)).emitted = [] ∧
      ExecuteUpgradeScript (fun _ => txOk) true
          (firstRunLedger ["001_a.sql", "002_b.sql"] rdW [] (fun _ => txOk))
          (secondScan ["001_a.sql", "002_b.sql"] rdW [] (fun _ => txOk)).emitted
        = ⟨[], 1, [],
            firstRunLedger ["001_a.sql", "002_b.sql"] rdW [] (fun _ => txOk), [], true⟩) :=
  ⟨by decide, fun _ => ⟨rfl, rfl, rfl, rfl⟩,
    second_run_no_scripts ["001_a.sql", "002_b.sql"] rdW [] (fun _ => txOk)
      (by decide) (fun _ => ⟨rfl, rfl, rfl, rfl⟩)⟩

/-- Claim C10 (counterexample): a directory entry whose name passes the
leading-digit-run filter but whose digit run exceeds the 64-bit integer
range makes `strconv.Atoi` fail, so the discoverer's guarded parse-error
branch is reached: it logs the range error, emits nothing and stops. -/
theorem parse_guard_reachable_cex :
    leadingDigits bigName ≠ "" ∧
    atoi (leadingDigits bigName) = .error (atoiErrMsg "99999999999999999999") ∧
    discGo 0 rdW [bigName] = ⟨[], 1, [.err (atoiErrMsg "99999999999999999999")], []⟩ := by
  refine ⟨by decide, rfl, rfl⟩

/-- Claim C10 (amended): the conversion of a filtered entry's digit prefix
fails only when the prefix's numeric value exceeds the platform's maximum
signed 64-bit integer, and then with `strconv.Atoi`'s range-error message;
for digit prefixes within range the guarded parse-error branch is
unreachable. -/
theorem parse_fail_only_overflow (ver : Int) (rd : String → Except String String)
    (f : String) (e : String) (h : entryStep ver rd f = .fail [] e) :
    maxInt < digitsVal (leadingDigits f) ∧ e = atoiErrMsg (leadingDigits f) := by
  obtain ⟨hne, ha⟩ := entryStep_fail_nil_inv h
  exact atoi_fail_inv ha

theorem parse_fail_only_overflow_witness :
    entryStep 0 rdW bigName = .fail [] (atoiErrMsg "99999999999999999999") ∧
    (maxInt < digitsVal (leadingDigits bigName) ∧
      atoiErrMsg "99999999999999999999" = atoiErrMsg (leadingDigits bigName)) :=
  ⟨by decide,
    parse_fail_only_overflow 0 rdW bigName (atoiErrMsg "99999999999999999999") (by decide)⟩

end Gopg
